import Mathlib

/-!
Verification of the range-partitioning core of the dumpling export tool
(v4/export/sql.go).

The development has two layers:

* a string layer: Lean functions that mirror, statement by statement, the
  Go functions that assemble WHERE-clause text (`buildWhereClauses`,
  `buildCompareClause`, `buildBetweenClause`, `getCommonLength`,
  `escapeString`) and the other pure helpers of sql.go;
* a semantic layer: the same clause constructions read as Boolean
  predicates over tuples of integers (one integer per ordering column),
  interpreting the SQL comparison operators `<`, `>`, `=` that the string
  layer prints.  The semantic functions follow the control flow of the Go
  source line by line; only the act of printing a comparison is replaced
  by evaluating it.

Database access is modelled by passing the query results (or the error
outcome) explicitly as arguments, as the functions under test only consume
them row by row.
-/

/-- Model of escapeString: strings.ReplaceAll(s, "`", "``"), written as a
character fold so that the kernel can evaluate it. -/
def escapeString (s : String) : String :=
  String.mk (s.data.foldr (fun c acc => if c = '`' then '`' :: '`' :: acc else c :: acc) [])

/-- Model of strings.ToLower on the ASCII texts compared here, written
as a character map so that the kernel can evaluate it. -/
def toLowerStr (s : String) : String := String.mk (s.data.map Char.toLower)

/-- Model of strings.ToUpper on the ASCII texts compared here, written
as a character map so that the kernel can evaluate it. -/
def toUpperStr (s : String) : String := String.mk (s.data.map Char.toUpper)

/-- The byte constant `greater` from sql.go. -/
def greater : Char := '>'

/-- The byte constant `less` from sql.go. -/
def less : Char := '<'

/-- The byte constant `equal` from sql.go. -/
def equal : Char := '='

/-- Model of buildCompareClause.  The Go loop writes, for each column
index i, the alternative `or(col0=b0 and ... and col_i <cmp> b_i)`, with
the final column's comparison made inclusive when writeEqual is set; the
separators are reproduced exactly. -/
def buildCompareClause (quotaCols : List String) (bound : List String)
    (compare : Char) (writeEqual : Bool) : String :=
  String.join ((List.range quotaCols.length).map fun i =>
    (if 0 < i then "or(" else "") ++
    String.join ((List.range i).map fun j =>
      quotaCols.getD j "" ++ equal.toString ++ bound.getD j "" ++ " and ") ++
    quotaCols.getD i "" ++ compare.toString ++
    (if writeEqual ∧ i = quotaCols.length - 1 then equal.toString else "") ++
    bound.getD i "" ++
    (if 0 < i then ")" else if i ≠ quotaCols.length - 1 then " " else ""))

/-- Model of getCommonLength: first index where low and up disagree, or
len(low) when they agree throughout.  (The Go source indexes up with low's
indices, so only equal-length calls occur.) -/
def getCommonLength {α : Type} [DecidableEq α] : List α → List α → Nat
  | [], _ => 0
  | _ :: _, [] => 0
  | l :: ls, u :: us => if l = u then getCommonLength ls us + 1 else 0

/-- Model of the singleBetween closure of buildBetweenClause:
`col0 > low0 and col0 < up0`, with `>=` when writeEqual is set.  The Go
closure reads the function-local slice variables after the common prefix
has been stripped, so the stripped lists are passed here explicitly. -/
def singleBetweenStr (quotaCols low up : List String) (writeEqual : Bool) : String :=
  quotaCols.getD 0 "" ++ greater.toString ++ (if writeEqual then equal.toString else "") ++
  low.getD 0 "" ++ " and " ++ quotaCols.getD 0 "" ++ less.toString ++ up.getD 0 ""

/-- Model of the part of buildBetweenClause that follows the
common-prefix handling (the Go function body after the reslicing). -/
def buildBetweenClauseBody (quotaCols low up : List String) : String :=
  if quotaCols.length = 1 then singleBetweenStr quotaCols low up true
  else
    "(" ++ singleBetweenStr quotaCols low up false ++ ")or(" ++
    quotaCols.getD 0 "" ++ equal.toString ++ low.getD 0 "" ++ " and(" ++
    buildCompareClause (quotaCols.drop 1) (low.drop 1) greater true ++ "))or(" ++
    quotaCols.getD 0 "" ++ equal.toString ++ up.getD 0 "" ++ " and(" ++
    buildCompareClause (quotaCols.drop 1) (up.drop 1) less false ++ "))"

/-- Model of buildBetweenClause: emit `false` when low = up throughout,
otherwise pin the common prefix with equalities and emit the remaining
range logic on the stripped suffix (the deferred closing bracket of the
Go source is the final `)` here). -/
def buildBetweenClause (quotaCols low up : List String) : String :=
  let commonLen := getCommonLength low up
  if 0 < commonLen then
    if commonLen = low.length then "false"
    else
      String.join ((List.range commonLen).map fun i =>
        (if 0 < i then " and " else "") ++ quotaCols.getD i "" ++ equal.toString ++ low.getD i "") ++
      " and(" ++
      buildBetweenClauseBody (quotaCols.drop commonLen) (low.drop commonLen) (up.drop commonLen) ++
      ")"
  else buildBetweenClauseBody quotaCols low up

/-- Model of buildWhereClauses: nil for empty columns or empty boundary
list, otherwise the clauses `(-inf, v0)`, `[v_i, v_{i+1})`, `[v_last, +inf)`
over the backtick-quoted column names. -/
def buildWhereClauses (handleColNames : List String) (handleVals : List (List String)) :
    List String :=
  if handleColNames.length = 0 ∨ handleVals.length = 0 then []
  else
    let quotaCols := handleColNames.map fun s => "`" ++ escapeString s ++ "`"
    [buildCompareClause quotaCols (handleVals.headD []) less false] ++
    ((List.range (handleVals.length - 1)).map fun i =>
      buildBetweenClause quotaCols (handleVals.getD i []) (handleVals.getD (i + 1) [])) ++
    [buildCompareClause quotaCols (handleVals.getLastD []) greater true]

/-- Model of GetSuitableRows: the default 200000 for a zero average row
length, otherwise 128MiB divided by the row length, capped at 1000000. -/
def GetSuitableRows (avgRowLength : Nat) : Nat :=
  let defaultRows := 200000
  let maxRows := 1000000
  let bytesPerFile := 128 * 1024 * 1024
  if avgRowLength = 0 then defaultRows
  else
    let estimateRows := bytesPerFile / avgRowLength
    if estimateRows > maxRows then maxRows else estimateRows

/-!
Semantic layer: the clause builders reread as Boolean predicates over
tuples of integers (`List Int`, one entry per ordering column).  Each
definition follows the corresponding string builder above (hence the Go
source) line by line; writing `col <cmp> bound` becomes evaluating the
comparison at the tuple component for that column.  All ordering-key
columns are numeric (the key selector only ever picks numeric columns),
so an integer domain interprets the printed literals.
-/

/-- Strict lexicographic order on equal-length integer tuples, the order
the generated SQL predicates partition. -/
def lexLtB : List Int → List Int → Bool
  | x :: xs, y :: ys => decide (x < y) || (decide (x = y) && lexLtB xs ys)
  | _, _ => false

/-- Reflexive lexicographic order on equal-length integer tuples. -/
def lexLeB (xs ys : List Int) : Bool := lexLtB xs ys || decide (xs = ys)

/-- Semantics of buildCompareClause: the i-th alternative of the printed
disjunction holds when the first i columns equal the bound and column i
compares as requested (inclusively on the last column when writeEqual).
The loop over quotaCols becomes a loop over the bound, of the same length
in every call, so the Go last-column test i == len(quotaCols)-1 is
written i + 1 = bound.length here. -/
def compareClauseSem (cmp : Int → Int → Bool) (writeEqual : Bool)
    (bound : List Int) (x : List Int) : Bool :=
  (List.range bound.length).any fun i =>
    ((List.range i).all fun j => decide (x.getD j 0 = bound.getD j 0)) &&
      (cmp (x.getD i 0) (bound.getD i 0) ||
        (writeEqual && decide (i + 1 = bound.length) && decide (x.getD i 0 = bound.getD i 0)))

/-- Semantics of the singleBetween closure:
`col0 > low0 [or = low0] and col0 < up0` evaluated at the tuple. -/
def singleBetweenSem (low up x : List Int) (writeEqual : Bool) : Bool :=
  (decide (low.getD 0 0 < x.getD 0 0) || (writeEqual && decide (x.getD 0 0 = low.getD 0 0))) &&
  decide (x.getD 0 0 < up.getD 0 0)

/-- Semantics of the body of buildBetweenClause after common-prefix
stripping: one remaining column gives a half-open interval, several give
the three printed alternatives. -/
def buildBetweenClauseBodySem (low up x : List Int) : Bool :=
  if low.length = 1 then singleBetweenSem low up x true
  else
    singleBetweenSem low up x false ||
    (decide (x.getD 0 0 = low.getD 0 0) &&
      compareClauseSem (fun a b => decide (b < a)) true (low.drop 1) (x.drop 1)) ||
    (decide (x.getD 0 0 = up.getD 0 0) &&
      compareClauseSem (fun a b => decide (a < b)) false (up.drop 1) (x.drop 1))

/-- Semantics of buildBetweenClause: `false` when the bounds agree on all
columns, otherwise the conjunction of the common-prefix equalities with
the body on the stripped suffix. -/
def buildBetweenClauseSem (low up x : List Int) : Bool :=
  let commonLen := getCommonLength low up
  if 0 < commonLen then
    if commonLen = low.length then false
    else
      ((List.range commonLen).all fun i => decide (x.getD i 0 = low.getD i 0)) &&
      buildBetweenClauseBodySem (low.drop commonLen) (up.drop commonLen) (x.drop commonLen)
  else buildBetweenClauseBodySem low up x

/-- Semantics of buildWhereClauses: the list of predicates
`(-inf, v0)`, `[v_i, v_(i+1))`, `[v_last, +inf)`; colCount plays the role
of len(handleColNames) in the emptiness guard. -/
def buildWhereClausesSem (colCount : Nat) (handleVals : List (List Int)) :
    List (List Int → Bool) :=
  if colCount = 0 ∨ handleVals.length = 0 then []
  else
    [fun x => compareClauseSem (fun a b => decide (a < b)) false (handleVals.headD []) x] ++
    ((List.range (handleVals.length - 1)).map fun i =>
      fun x => buildBetweenClauseSem (handleVals.getD i []) (handleVals.getD (i + 1) []) x) ++
    [fun x => compareClauseSem (fun a b => decide (b < a)) true (handleVals.getLastD []) x]

/-- Membership of a tuple in the i-th half-open lexicographic interval
delimited by the boundary tuples: `[v_(i-1), v_i)`, unbounded below for
i = 0 and unbounded above for i = length. -/
def intervalMemB (handleVals : List (List Int)) (i : Nat) (x : List Int) : Bool :=
  (if i = 0 then true else lexLeB (handleVals.getD (i - 1) []) x) &&
  (if i < handleVals.length then lexLtB x (handleVals.getD i []) else true)

/-!
Lemmas.  First the recursive characterisations of the index-based
definitions, then the order theory of `lexLtB`/`lexLeB`, then the
correspondence between the generated clauses and lexicographic intervals.
-/

theorem compareClauseSem_nil (cmp : Int → Int → Bool) (we : Bool) (x : List Int) :
    compareClauseSem cmp we [] x = false := rfl

theorem compareClauseSem_cons (cmp : Int → Int → Bool) (we : Bool) (b0 x0 : Int)
    (bs xs : List Int) :
    compareClauseSem cmp we (b0 :: bs) (x0 :: xs) =
      ((cmp x0 b0 || (we && decide (bs = []) && decide (x0 = b0))) ||
        (decide (x0 = b0) && compareClauseSem cmp we bs xs)) := by
  rw [Bool.eq_iff_iff]
  simp only [compareClauseSem, List.any_eq_true, List.mem_range, List.all_eq_true,
    Bool.and_eq_true, Bool.or_eq_true, decide_eq_true_eq, List.length_cons]
  constructor
  · rintro ⟨i, hi, hall, hc⟩
    match i with
    | 0 =>
      simp only [List.getD_cons_zero] at hc
      rcases hc with hc | ⟨⟨hwe, hn⟩, hx⟩
      · exact Or.inl (Or.inl hc)
      · exact Or.inl (Or.inr ⟨⟨hwe, List.length_eq_zero.mp (by omega)⟩, hx⟩)
    | k + 1 =>
      have hx0 : x0 = b0 := by simpa using hall 0 (Nat.succ_pos k)
      simp only [List.getD_cons_succ] at hc
      refine Or.inr ⟨hx0, ⟨k, by omega, ?_, ?_⟩⟩
      · intro j hj
        simpa [List.getD_cons_succ] using hall (j + 1) (by omega)
      · rcases hc with hc | ⟨⟨hwe, hn⟩, hx⟩
        · exact Or.inl hc
        · exact Or.inr ⟨⟨hwe, by omega⟩, hx⟩
  · rintro ((hc | ⟨⟨hwe, hbs⟩, hx⟩) | ⟨hx0, i, hi, hall, hc⟩)
    · exact ⟨0, by omega, by simp, Or.inl (by simpa using hc)⟩
    · exact ⟨0, by omega, by simp, Or.inr ⟨⟨hwe, by simp [hbs]⟩, by simpa using hx⟩⟩
    · refine ⟨i + 1, by omega, ?_, ?_⟩
      · intro j hj
        match j with
        | 0 => simpa using hx0
        | m + 1 => simpa [List.getD_cons_succ] using hall m (by omega)
      · simp only [List.getD_cons_succ]
        rcases hc with hc | ⟨⟨hwe, hn⟩, hx⟩
        · exact Or.inl hc
        · exact Or.inr ⟨⟨hwe, by omega⟩, hx⟩

theorem lexLtB_cons (a b : Int) (l1 l2 : List Int) :
    lexLtB (a :: l1) (b :: l2) = (decide (a < b) || (decide (a = b) && lexLtB l1 l2)) := rfl

theorem lexLeB_cons (a b : Int) (l1 l2 : List Int) :
    lexLeB (a :: l1) (b :: l2) = (decide (a < b) || (decide (a = b) && lexLeB l1 l2)) := by
  rw [Bool.eq_iff_iff]
  simp only [lexLeB, lexLtB_cons, Bool.or_eq_true, Bool.and_eq_true, decide_eq_true_eq,
    List.cons.injEq]
  tauto

theorem lexLtB_irrefl (a : List Int) : lexLtB a a = false := by
  induction a with
  | nil => rfl
  | cons x xs ih => simp [lexLtB_cons, ih]

theorem lexLeB_refl (a : List Int) : lexLeB a a = true := by
  simp [lexLeB]

theorem lexLtB_trans {a b c : List Int} (h1 : lexLtB a b = true) (h2 : lexLtB b c = true) :
    lexLtB a c = true := by
  induction a generalizing b c with
  | nil => cases b <;> simp [lexLtB] at h1
  | cons x xs ih =>
    cases b with
    | nil => simp [lexLtB] at h1
    | cons y ys =>
      cases c with
      | nil => simp [lexLtB] at h2
      | cons z zs =>
        simp only [lexLtB_cons, Bool.or_eq_true, Bool.and_eq_true, decide_eq_true_eq] at h1 h2 ⊢
        rcases h1 with h1 | ⟨he1, h1⟩ <;> rcases h2 with h2 | ⟨he2, h2⟩
        · exact Or.inl (by omega)
        · exact Or.inl (by omega)
        · exact Or.inl (by omega)
        · exact Or.inr ⟨by omega, ih h1 h2⟩

theorem lexLeB_iff {a b : List Int} : lexLeB a b = true ↔ (lexLtB a b = true ∨ a = b) := by
  simp [lexLeB]

theorem lexLtB_of_lt_le {a b c : List Int} (h1 : lexLtB a b = true) (h2 : lexLeB b c = true) :
    lexLtB a c = true := by
  rcases lexLeB_iff.mp h2 with h | rfl
  · exact lexLtB_trans h1 h
  · exact h1

theorem lexLtB_of_le_lt {a b c : List Int} (h1 : lexLeB a b = true) (h2 : lexLtB b c = true) :
    lexLtB a c = true := by
  rcases lexLeB_iff.mp h1 with h | rfl
  · exact lexLtB_trans h h2
  · exact h2

theorem lexLeB_trans {a b c : List Int} (h1 : lexLeB a b = true) (h2 : lexLeB b c = true) :
    lexLeB a c = true := by
  rcases lexLeB_iff.mp h1 with h | rfl
  · exact lexLeB_iff.mpr (Or.inl (lexLtB_of_lt_le h h2))
  · exact h2

theorem lexLeB_of_not_lt {a b : List Int} (h : a.length = b.length)
    (hn : lexLtB a b = false) : lexLeB b a = true := by
  induction a generalizing b with
  | nil =>
    have : b = [] := List.length_eq_zero.mp (by simpa using h.symm)
    subst this
    exact lexLeB_refl []
  | cons x xs ih =>
    cases b with
    | nil => simp at h
    | cons y ys =>
      have hn' : ¬ (x < y ∨ (x = y ∧ lexLtB xs ys = true)) := by
        simpa [lexLtB_cons] using hn
      push_neg at hn'
      by_cases hxy : x = y
      · subst hxy
        have hrec : lexLtB xs ys = false := by
          have := hn'.2 rfl
          simpa using this
        have := ih (b := ys) (by simpa using h) hrec
        simp [lexLeB_cons, this]
      · have hyx : y < x := by omega
        simp [lexLeB_cons, hyx]

theorem compareClauseSem_lt (b x : List Int) (h : x.length = b.length) :
    compareClauseSem (fun a c => decide (a < c)) false b x = lexLtB x b := by
  induction b generalizing x with
  | nil =>
    have hx : x = [] := List.length_eq_zero.mp (by simpa using h)
    subst hx; rfl
  | cons b0 bs ih =>
    cases x with
    | nil => simp at h
    | cons x0 xs =>
      rw [compareClauseSem_cons, ih xs (by simpa using h)]
      simp [lexLtB_cons]

theorem compareClauseSem_ge (b x : List Int) (h : x.length = b.length) (hne : b ≠ []) :
    compareClauseSem (fun a c => decide (c < a)) true b x = lexLeB b x := by
  induction b generalizing x with
  | nil => exact absurd rfl hne
  | cons b0 bs ih =>
    cases x with
    | nil => simp at h
    | cons x0 xs =>
      rw [compareClauseSem_cons]
      rcases eq_or_ne bs [] with hbs | hbs
      · subst hbs
        have hx : xs = [] := List.length_eq_zero.mp (by simpa using h)
        subst hx
        rw [Bool.eq_iff_iff]
        simp [compareClauseSem_nil, lexLeB_cons, lexLeB_refl]
        omega
      · rw [ih xs (by simpa using h) hbs, lexLeB_cons]
        rw [Bool.eq_iff_iff]
        simp [hbs]
        constructor
        · rintro (hlt | ⟨hx, hle⟩)
          · exact Or.inl hlt
          · exact Or.inr ⟨hx.symm, hle⟩
        · rintro (hlt | ⟨hx, hle⟩)
          · exact Or.inl hlt
          · exact Or.inr ⟨hx.symm, hle⟩

theorem getCommonLength_self {α : Type} [DecidableEq α] (l : List α) :
    getCommonLength l l = l.length := by
  induction l with
  | nil => rfl
  | cons a l ih => simp [getCommonLength, ih]

theorem getCommonLength_cons_eq {α : Type} [DecidableEq α] (a : α) (l1 l2 : List α) :
    getCommonLength (a :: l1) (a :: l2) = getCommonLength l1 l2 + 1 := by
  simp [getCommonLength]

theorem buildBetweenClauseSem_empty (xs : List Int) : buildBetweenClauseSem [] [] xs = false := by
  simp [buildBetweenClauseSem, getCommonLength, buildBetweenClauseBodySem, singleBetweenSem,
    compareClauseSem_nil, List.drop_nil, List.getD_nil]
  omega

theorem all_range_succ_cons (c : Nat) (x0 l0 : Int) (xs ls : List Int) :
    ((List.range (c + 1)).all fun i => decide ((x0 :: xs).getD i 0 = (l0 :: ls).getD i 0)) =
      (decide (x0 = l0) && ((List.range c).all fun i => decide (xs.getD i 0 = ls.getD i 0))) := by
  rw [List.range_succ_eq_map]
  simp [List.all_cons, List.all_map, Function.comp_def, List.getD_cons_succ]

theorem buildBetweenClauseSem_cons (l0 x0 : Int) (ls us xs : List Int)
    (h : ls.length = us.length) :
    buildBetweenClauseSem (l0 :: ls) (l0 :: us) (x0 :: xs) =
      (decide (x0 = l0) && buildBetweenClauseSem ls us xs) := by
  rcases eq_or_ne (getCommonLength ls us) ls.length with hc | hc
  · have hL : buildBetweenClauseSem (l0 :: ls) (l0 :: us) (x0 :: xs) = false := by
      simp only [buildBetweenClauseSem, getCommonLength_cons_eq]
      rw [if_pos (Nat.succ_pos _), if_pos (by simp [hc])]
    rcases eq_or_ne ls [] with hnil | hnil
    · subst hnil
      have hus : us = [] := List.length_eq_zero.mp (by simpa using h.symm)
      subst hus
      simp [hL, buildBetweenClauseSem_empty]
    · have hR : buildBetweenClauseSem ls us xs = false := by
        simp only [buildBetweenClauseSem]
        rw [if_pos (hc ▸ List.length_pos.mpr hnil), if_pos hc]
      simp [hL, hR]
  · have hkey : buildBetweenClauseSem (l0 :: ls) (l0 :: us) (x0 :: xs) =
        ((decide (x0 = l0) &&
          ((List.range (getCommonLength ls us)).all fun i =>
            decide (xs.getD i 0 = ls.getD i 0))) &&
          buildBetweenClauseBodySem (ls.drop (getCommonLength ls us))
            (us.drop (getCommonLength ls us)) (xs.drop (getCommonLength ls us))) := by
      simp only [buildBetweenClauseSem, getCommonLength_cons_eq]
      rw [if_pos (Nat.succ_pos _), if_neg (by simp [hc])]
      rw [all_range_succ_cons]
      simp [List.drop_succ_cons]
    rw [hkey]
    rcases Nat.eq_zero_or_pos (getCommonLength ls us) with h0 | hpos
    · rw [h0]
      have hR : buildBetweenClauseSem ls us xs = buildBetweenClauseBodySem ls us xs := by
        simp only [buildBetweenClauseSem]
        rw [if_neg (by omega)]
      rw [hR]
      simp
    · have hR : buildBetweenClauseSem ls us xs =
          (((List.range (getCommonLength ls us)).all fun i =>
            decide (xs.getD i 0 = ls.getD i 0)) &&
            buildBetweenClauseBodySem (ls.drop (getCommonLength ls us))
              (us.drop (getCommonLength ls us)) (xs.drop (getCommonLength ls us))) := by
        simp only [buildBetweenClauseSem]
        rw [if_pos hpos, if_neg hc]
      rw [hR, Bool.and_assoc]

theorem lexLeB_lexLtB_absurd (a x : List Int) : (lexLeB a x && lexLtB x a) = false := by
  rw [Bool.eq_false_iff]
  intro hc
  rw [Bool.and_eq_true] at hc
  have hxx := lexLtB_of_le_lt hc.1 hc.2
  rw [lexLtB_irrefl] at hxx
  cases hxx

/-- Correctness of the between clause: on equal-length tuples with
`low <= up` lexicographically, the generated clause holds exactly on the
half-open lexicographic interval `[low, up)`. -/
theorem buildBetweenClauseSem_spec (low up x : List Int)
    (hl : low.length = up.length) (hx : x.length = low.length) (hpos : 0 < low.length)
    (hle : lexLeB low up = true) :
    buildBetweenClauseSem low up x = (lexLeB low x && lexLtB x up) := by
  induction low generalizing up x with
  | nil => simp at hpos
  | cons l0 ls ih =>
    cases up with
    | nil => simp at hl
    | cons u0 us =>
      cases x with
      | nil => simp at hx
      | cons x0 xs =>
        rcases eq_or_ne l0 u0 with rfl | hne
        · rw [buildBetweenClauseSem_cons l0 x0 ls us xs (by simpa using hl)]
          have hle' : lexLeB ls us = true := by
            rw [lexLeB_cons] at hle
            simpa using hle
          rcases eq_or_ne ls [] with rfl | hnil
          · have hus : us = [] := List.length_eq_zero.mp (by simpa using hl.symm)
            subst hus
            rw [buildBetweenClauseSem_empty, lexLeB_lexLtB_absurd [l0] (x0 :: xs)]
            simp
          · rw [ih us xs (by simpa using hl) (by simpa using hx)
              (List.length_pos.mpr hnil) hle']
            rw [Bool.eq_iff_iff]
            simp [lexLeB_cons, lexLtB_cons]
            constructor
            · rintro ⟨hx0, hA, hB⟩
              exact ⟨Or.inr ⟨hx0.symm, hA⟩, Or.inr ⟨hx0, hB⟩⟩
            · rintro ⟨h1 | ⟨h1e, hA⟩, h2 | ⟨h2e, hB⟩⟩
              · exact absurd h1 (by omega)
              · exact absurd h1 (by omega)
              · exact absurd h2 (by omega)
              · exact ⟨h2e, hA, hB⟩
        · have hcl : getCommonLength (l0 :: ls) (u0 :: us) = 0 := by
            simp [getCommonLength, hne]
          have hbody : buildBetweenClauseSem (l0 :: ls) (u0 :: us) (x0 :: xs) =
              buildBetweenClauseBodySem (l0 :: ls) (u0 :: us) (x0 :: xs) := by
            simp only [buildBetweenClauseSem]
            rw [hcl]
            simp
          rw [hbody]
          have hl0u0 : l0 < u0 := by
            rw [lexLeB_cons] at hle
            simp only [Bool.or_eq_true, Bool.and_eq_true, decide_eq_true_eq] at hle
            rcases hle with h | ⟨he, _⟩
            · exact h
            · exact absurd he hne
          rcases eq_or_ne ls [] with rfl | hnil
          · have hus : us = [] := List.length_eq_zero.mp (by simpa using hl.symm)
            have hxs : xs = [] := List.length_eq_zero.mp (by simpa using hx)
            subst hus; subst hxs
            rw [Bool.eq_iff_iff]
            simp [buildBetweenClauseBodySem, singleBetweenSem, lexLeB_cons, lexLtB_cons,
              lexLeB, lexLtB]
            omega
          · have hlen1 : ¬ ((l0 :: ls).length = 1) := by
              have := List.length_pos.mpr hnil
              simp only [List.length_cons]
              omega
            have hxl : xs.length = ls.length := by simpa using hx
            have hul : xs.length = us.length := by
              rw [hxl]
              simpa using hl
            rw [Bool.eq_iff_iff]
            simp only [buildBetweenClauseBodySem, if_neg hlen1, singleBetweenSem,
              List.getD_cons_zero, List.drop_succ_cons, List.drop_zero,
              compareClauseSem_ge ls xs hxl hnil, compareClauseSem_lt us xs hul,
              Bool.and_false, Bool.false_and, Bool.or_false, lexLeB_cons, lexLtB_cons,
              Bool.or_eq_true, Bool.and_eq_true, decide_eq_true_eq]
            constructor
            · rintro ((⟨h1, h2⟩ | ⟨hx0, hA⟩) | ⟨hx0, hB⟩)
              · exact ⟨Or.inl h1, Or.inl h2⟩
              · exact ⟨Or.inr ⟨hx0.symm, hA⟩, Or.inl (by omega)⟩
              · exact ⟨Or.inl (by omega), Or.inr ⟨hx0, hB⟩⟩
            · rintro ⟨h1 | ⟨h1e, hA⟩, h2 | ⟨h2e, hB⟩⟩
              · exact Or.inl (Or.inl ⟨h1, h2⟩)
              · exact Or.inr ⟨h2e, hB⟩
              · exact Or.inl (Or.inr ⟨h1e.symm, hA⟩)
              · exact Or.inl (Or.inr ⟨h1e.symm, hA⟩)

theorem headD_eq_getD (l : List (List Int)) : l.headD [] = l.getD 0 [] := by
  cases l <;> rfl

theorem getLastD_eq_getD (l : List (List Int)) (d : List Int) (hne : l ≠ []) :
    l.getLastD d = l.getD (l.length - 1) d := by
  induction l generalizing d with
  | nil => exact absurd rfl hne
  | cons a l ih =>
    rcases eq_or_ne l [] with rfl | hnil
    · rfl
    · rw [List.getLastD_cons, ih a hnil]
      have hp : 0 < l.length := List.length_pos.mpr hnil
      have h1 : (a :: l).length - 1 = (l.length - 1) + 1 := by
        simp only [List.length_cons]
        omega
      rw [h1, List.getD_cons_succ]
      rw [List.getD_eq_getElem _ _ (by omega), List.getD_eq_getElem _ _ (by omega)]

theorem buildWhereClausesSem_length (N : Nat) (hN : N ≠ 0) (vals : List (List Int))
    (hv : vals ≠ []) : (buildWhereClausesSem N vals).length = vals.length + 1 := by
  have hp : 0 < vals.length := List.length_pos.mpr hv
  simp only [buildWhereClausesSem]
  rw [if_neg (by omega)]
  simp only [List.length_append, List.length_cons, List.length_map, List.length_range,
    List.length_nil]
  omega

theorem buildWhereClausesSem_getD (N : Nat) (hN : N ≠ 0) (vals : List (List Int))
    (hv : vals ≠ []) (i : Nat) (hi : i ≤ vals.length) (x : List Int) :
    (buildWhereClausesSem N vals).getD i (fun _ => false) x =
      (if i = 0 then
        compareClauseSem (fun a b => decide (a < b)) false (vals.getD 0 []) x
      else if i < vals.length then
        buildBetweenClauseSem (vals.getD (i - 1) []) (vals.getD i []) x
      else
        compareClauseSem (fun a b => decide (b < a)) true (vals.getD (vals.length - 1) []) x) := by
  have hp : 0 < vals.length := List.length_pos.mpr hv
  simp only [buildWhereClausesSem]
  rw [if_neg (by omega)]
  match i with
  | 0 =>
    rw [if_pos rfl]
    simp only [List.singleton_append, List.cons_append, List.getD_cons_zero, headD_eq_getD]
  | j + 1 =>
    rw [if_neg (by omega)]
    simp only [List.singleton_append, List.cons_append, List.getD_cons_succ, List.nil_append]
    by_cases hj : j + 1 < vals.length
    · rw [if_pos hj]
      have hjm : j < ((List.range (vals.length - 1)).map fun i =>
          fun x => buildBetweenClauseSem (vals.getD i []) (vals.getD (i + 1) []) x).length := by
        simp
        omega
      rw [List.getD_append _ _ _ _ hjm, List.getD_eq_getElem _ _ hjm]
      simp
    · rw [if_neg hj]
      have hie : j + 1 = vals.length := by omega
      have hjm : ((List.range (vals.length - 1)).map fun i =>
          fun x => buildBetweenClauseSem (vals.getD i []) (vals.getD (i + 1) []) x).length ≤ j := by
        simp
        omega
      rw [List.getD_append_right _ _ _ _ hjm]
      have hz : j - ((List.range (vals.length - 1)).map fun i =>
          fun x => buildBetweenClauseSem (vals.getD i []) (vals.getD (i + 1) []) x).length = 0 := by
        simp
        omega
      rw [hz, getLastD_eq_getD vals [] hv]
      rfl

theorem sorted_getD_le (vals : List (List Int))
    (hs : List.Chain' (fun a b => lexLeB a b = true) vals) (i j : Nat) (hij : i ≤ j)
    (hj : j < vals.length) : lexLeB (vals.getD i []) (vals.getD j []) = true := by
  induction j with
  | zero =>
    have hi0 : i = 0 := by omega
    subst hi0
    exact lexLeB_refl _
  | succ k ihk =>
    rcases eq_or_lt_of_le hij with rfl | hlt
    · exact lexLeB_refl _
    · have hik : i ≤ k := by omega
      have hk : k < vals.length := by omega
      have hadj : lexLeB (vals.getD k []) (vals.getD (k + 1) []) = true := by
        have hc := List.chain'_iff_get.mp hs k (by omega)
        rw [List.getD_eq_getElem _ _ hk, List.getD_eq_getElem _ _ hj]
        simpa using hc
      exact lexLeB_trans (ihk hik hk) hadj

theorem intervalMemB_shift (v : List Int) (vs : List (List Int)) (i : Nat) (x : List Int)
    (hmem : intervalMemB vs i x = true) (hle : lexLeB v x = true) :
    intervalMemB (v :: vs) (i + 1) x = true := by
  unfold intervalMemB at hmem ⊢
  rw [Bool.and_eq_true] at hmem ⊢
  constructor
  · rw [if_neg (Nat.succ_ne_zero i)]
    match i with
    | 0 => simpa using hle
    | k + 1 =>
      have h1 := hmem.1
      rw [if_neg (Nat.succ_ne_zero k)] at h1
      simpa [List.getD_cons_succ] using h1
  · by_cases hlt : i < vs.length
    · have h2 := hmem.2
      rw [if_pos hlt] at h2
      rw [if_pos (by simpa using Nat.succ_lt_succ hlt)]
      simpa [List.getD_cons_succ] using h2
    · rw [if_neg (by simp; omega)]

theorem intervalMemB_exists (vals : List (List Int)) (x : List Int) (hv : vals ≠ [])
    (hlen : ∀ v ∈ vals, v.length = x.length) :
    ∃ i, i ≤ vals.length ∧ intervalMemB vals i x = true := by
  induction vals with
  | nil => exact absurd rfl hv
  | cons v vs ih =>
    by_cases hx : lexLtB x v = true
    · refine ⟨0, by omega, ?_⟩
      unfold intervalMemB
      rw [if_pos rfl, if_pos (by simp)]
      simpa using hx
    · have hvx : lexLeB v x = true :=
        lexLeB_of_not_lt (by rw [hlen v (by simp)]) (by rwa [Bool.not_eq_true] at hx)
      rcases eq_or_ne vs [] with rfl | hne
      · refine ⟨1, by simp, ?_⟩
        unfold intervalMemB
        rw [if_neg one_ne_zero, if_neg (by simp)]
        simpa using hvx
      · obtain ⟨i, hi, hmem⟩ := ih hne (fun w hw => hlen w (by simp [hw]))
        exact ⟨i + 1, by simpa using Nat.succ_le_succ hi,
          intervalMemB_shift v vs i x hmem hvx⟩

theorem intervalMemB_unique (vals : List (List Int)) (x : List Int)
    (hs : List.Chain' (fun a b => lexLeB a b = true) vals)
    (i j : Nat) (hij : i < j) (hj : j ≤ vals.length)
    (hi : intervalMemB vals i x = true) (hjm : intervalMemB vals j x = true) : False := by
  unfold intervalMemB at hi hjm
  rw [Bool.and_eq_true] at hi hjm
  have hupper : lexLtB x (vals.getD i []) = true := by
    have h2 := hi.2
    rwa [if_pos (by omega)] at h2
  have hlower : lexLeB (vals.getD (j - 1) []) x = true := by
    have h1 := hjm.1
    rwa [if_neg (by omega)] at h1
  have hmid : lexLeB (vals.getD i []) (vals.getD (j - 1) []) = true :=
    sorted_getD_le vals hs i (j - 1) (by omega) (by omega)
  have hxx : lexLtB x x = true :=
    lexLtB_of_lt_le hupper (lexLeB_trans hmid hlower)
  rw [lexLtB_irrefl] at hxx
  cases hxx

theorem getD_mem_of_lt {α : Type} (l : List α) (d : α) (k : Nat) (hk : k < l.length) :
    l.getD k d ∈ l := by
  rw [List.getD_eq_getElem _ _ hk]
  exact List.getElem_mem hk

theorem buildWhereClauses_length (cols : List String) (strVals : List (List String))
    (hc : cols ≠ []) (hv : strVals ≠ []) :
    (buildWhereClauses cols strVals).length = strVals.length + 1 := by
  have hp : 0 < strVals.length := List.length_pos.mpr hv
  have hcp : 0 < cols.length := List.length_pos.mpr hc
  simp only [buildWhereClauses]
  rw [if_neg (by omega)]
  simp only [List.length_append, List.length_cons, List.length_map, List.length_range,
    List.length_nil]
  omega

theorem buildWhereClausesSem_interval (N : Nat) (hN : N ≠ 0) (vals : List (List Int))
    (hv : vals ≠ []) (hlen : ∀ v ∈ vals, v.length = N)
    (hs : List.Chain' (fun a b => lexLeB a b = true) vals)
    (x : List Int) (hx : x.length = N) (i : Nat) (hi : i ≤ vals.length) :
    ((buildWhereClausesSem N vals).getD i (fun _ => false)) x = intervalMemB vals i x := by
  have hp : 0 < vals.length := List.length_pos.mpr hv
  rw [buildWhereClausesSem_getD N hN vals hv i hi x]
  match i with
  | 0 =>
    rw [if_pos rfl]
    have hb : (vals.getD 0 []).length = N := hlen _ (getD_mem_of_lt vals [] 0 hp)
    rw [compareClauseSem_lt _ _ (by rw [hx, hb])]
    unfold intervalMemB
    rw [if_pos rfl, if_pos hp]
    simp
  | j + 1 =>
    simp only [Nat.add_sub_cancel]
    by_cases hlt : j + 1 < vals.length
    · rw [if_neg (Nat.succ_ne_zero j), if_pos hlt]
      have h1 : (vals.getD j []).length = N := hlen _ (getD_mem_of_lt vals [] j (by omega))
      have h2 : (vals.getD (j + 1) []).length = N := hlen _ (getD_mem_of_lt vals [] (j + 1) hlt)
      have hle : lexLeB (vals.getD j []) (vals.getD (j + 1) []) = true :=
        sorted_getD_le vals hs j (j + 1) (by omega) hlt
      rw [buildBetweenClauseSem_spec _ _ _ (by rw [h1, h2]) (by rw [hx, h1])
        (by rw [h1]; omega) hle]
      unfold intervalMemB
      rw [if_neg (Nat.succ_ne_zero j), if_pos hlt]
      simp
    · have hieq : j + 1 = vals.length := by omega
      rw [if_neg (Nat.succ_ne_zero j), if_neg hlt]
      have hb : (vals.getD (vals.length - 1) []).length = N :=
        hlen _ (getD_mem_of_lt vals [] _ (by omega))
      have hbne : vals.getD (vals.length - 1) [] ≠ [] := by
        intro hcon
        rw [hcon] at hb
        simp only [List.length_nil] at hb
        exact hN hb.symm
      rw [compareClauseSem_ge _ _ (by rw [hx, hb]) hbne]
      unfold intervalMemB
      rw [if_neg (Nat.succ_ne_zero j), if_neg (by omega)]
      simp [hieq]

/-- C1 (amended: the boundary-tuple list must be non-empty, M >= 1; for
M = 0 the function returns nil, not one unbounded predicate — see the
counterexample).  For an ordering key of arity N >= 1 and a
lexicographically sorted non-empty list of boundary tuples of length N:
buildWhereClauses returns M+1 predicate strings; semantically the i-th
generated predicate holds at a tuple exactly when the tuple lies in the
i-th half-open lexicographic interval `(-inf, t1), [t1, t2), ..., [tM, +inf)`,
and every tuple lies in exactly one of those M+1 intervals, so the
predicates are mutually exclusive and jointly exhaustive and appear in
interval order. -/
theorem C1_buildWhereClauses_partition
    (cols : List String) (strVals : List (List String)) (hcols : cols ≠ []) (hstr : strVals ≠ [])
    (N : Nat) (hN : N ≠ 0) (vals : List (List Int)) (hv : vals ≠ [])
    (hlen : ∀ v ∈ vals, v.length = N)
    (hs : List.Chain' (fun a b => lexLeB a b = true) vals)
    (x : List Int) (hx : x.length = N) (i : Nat) (hi : i ≤ vals.length) :
    (buildWhereClauses cols strVals).length = strVals.length + 1 ∧
    (buildWhereClausesSem N vals).length = vals.length + 1 ∧
    ((buildWhereClausesSem N vals).getD i (fun _ => false)) x = intervalMemB vals i x ∧
    (∃! k, k ≤ vals.length ∧ intervalMemB vals k x = true) := by
  refine ⟨buildWhereClauses_length cols strVals hcols hstr,
    buildWhereClausesSem_length N hN vals hv,
    buildWhereClausesSem_interval N hN vals hv hlen hs x hx i hi, ?_⟩
  obtain ⟨k, hk, hmem⟩ := intervalMemB_exists vals x hv (fun v hvm => by rw [hlen v hvm, hx])
  refine ⟨k, ⟨hk, hmem⟩, ?_⟩
  rintro j ⟨hj, hjm⟩
  rcases lt_trichotomy j k with h | h | h
  · exact (intervalMemB_unique vals x hs j k h hk hjm hmem).elim
  · exact h
  · exact (intervalMemB_unique vals x hs k j h hj hmem hjm).elim

/-- C1 witness: one column named col, one boundary tuple, evaluated at
the tuple (0) and predicate index 0. -/
theorem C1_buildWhereClauses_partition_witness :
    ((["col"] : List String) ≠ [] ∧ ([["1"]] : List (List String)) ≠ [] ∧ (1 : Nat) ≠ 0 ∧
      ([[(1 : Int)]] : List (List Int)) ≠ [] ∧ (∀ v ∈ [[(1 : Int)]], v.length = 1) ∧
      List.Chain' (fun a b => lexLeB a b = true) [[(1 : Int)]] ∧
      ([(0 : Int)] : List Int).length = 1 ∧ (0 : Nat) ≤ 1) ∧
    ((buildWhereClauses ["col"] [["1"]]).length = 2 ∧
      (buildWhereClausesSem 1 [[(1 : Int)]]).length = 2 ∧
      ((buildWhereClausesSem 1 [[(1 : Int)]]).getD 0 (fun _ => false)) [(0 : Int)] =
        intervalMemB [[(1 : Int)]] 0 [(0 : Int)] ∧
      (∃! k, k ≤ ([[(1 : Int)]] : List (List Int)).length ∧
        intervalMemB [[(1 : Int)]] k [(0 : Int)] = true)) :=
  ⟨⟨by decide, by decide, by decide, by decide, by decide, List.chain'_singleton _, by decide,
      by decide⟩,
    C1_buildWhereClauses_partition ["col"] [["1"]] (by decide) (by decide) 1 (by decide)
      [[(1 : Int)]] (by decide) (by decide) (List.chain'_singleton _) [(0 : Int)] (by decide)
      0 (by decide)⟩

/-- C1 counterexample: for M = 0 (zero boundary tuples) and a one-column
key the function returns zero predicates, not M+1 = 1 as the claim
states for every M >= 0. -/
theorem C1_counterexample_empty_bounds :
    buildWhereClauses ["col"] [] = [] ∧ (buildWhereClauses ["col"] []).length ≠ 0 + 1 := by
  refine ⟨by decide, by decide⟩

/-- C2: when the two consecutive boundary tuples agree on every column,
buildBetweenClause emits the literal clause `false`; that clause selects
no tuple; and over any sorted boundary list (duplicates included) no
tuple satisfies two distinct generated predicates. -/
theorem C2_duplicate_boundary_false
    (quotaCols low : List String) (hlow : low ≠ [])
    (lowI x : List Int) (hlowI : lowI ≠ [])
    (N : Nat) (vals : List (List Int)) (y : List Int) (hN : N ≠ 0) (hv : vals ≠ [])
    (hlen : ∀ v ∈ vals, v.length = N)
    (hs : List.Chain' (fun a b => lexLeB a b = true) vals) (hy : y.length = N)
    (i j : Nat) (hij : i < j) (hj : j ≤ vals.length) :
    buildBetweenClause quotaCols low low = "false" ∧
    buildBetweenClauseSem lowI lowI x = false ∧
    ¬(((buildWhereClausesSem N vals).getD i (fun _ => false)) y = true ∧
      ((buildWhereClausesSem N vals).getD j (fun _ => false)) y = true) := by
  refine ⟨?_, ?_, ?_⟩
  · have hc := getCommonLength_self low
    simp only [buildBetweenClause]
    rw [if_pos (by rw [hc]; exact List.length_pos.mpr hlow), if_pos hc]
  · have hc := getCommonLength_self lowI
    simp only [buildBetweenClauseSem]
    rw [if_pos (by rw [hc]; exact List.length_pos.mpr hlowI), if_pos hc]
  · rintro ⟨hi2, hj2⟩
    rw [buildWhereClausesSem_interval N hN vals hv hlen hs y hy i (by omega)] at hi2
    rw [buildWhereClausesSem_interval N hN vals hv hlen hs y hy j hj] at hj2
    exact intervalMemB_unique vals y hs i j hij hj hi2 hj2

/-- C2 witness: duplicated boundary tuple (1,1) in a one-column key,
checked at the tuple (0) and at the first two predicates. -/
theorem C2_duplicate_boundary_false_witness :
    ((["1"] : List String) ≠ [] ∧ ([(1 : Int)] : List Int) ≠ [] ∧ (1 : Nat) ≠ 0 ∧
      ([[(1 : Int)], [(1 : Int)]] : List (List Int)) ≠ [] ∧
      (∀ v ∈ [[(1 : Int)], [(1 : Int)]], v.length = 1) ∧
      List.Chain' (fun a b => lexLeB a b = true) [[(1 : Int)], [(1 : Int)]] ∧
      ([(0 : Int)] : List Int).length = 1 ∧ (0 : Nat) < 1 ∧ (1 : Nat) ≤ 2) ∧
    (buildBetweenClause ["`a`"] ["1"] ["1"] = "false" ∧
      buildBetweenClauseSem [(1 : Int)] [(1 : Int)] [(0 : Int)] = false ∧
      ¬(((buildWhereClausesSem 1 [[(1 : Int)], [(1 : Int)]]).getD 0 (fun _ => false))
          [(0 : Int)] = true ∧
        ((buildWhereClausesSem 1 [[(1 : Int)], [(1 : Int)]]).getD 1 (fun _ => false))
          [(0 : Int)] = true)) :=
  ⟨⟨by decide, by decide, by decide, by decide, by decide,
      by rw [List.chain'_cons]; exact ⟨by decide, List.chain'_singleton _⟩, by decide, by decide,
      by decide⟩,
    C2_duplicate_boundary_false ["`a`"] ["1"] (by decide) [(1 : Int)] [(0 : Int)] (by decide)
      1 [[(1 : Int)], [(1 : Int)]] [(0 : Int)] (by decide) (by decide) (by decide)
      (by rw [List.chain'_cons]; exact ⟨by decide, List.chain'_singleton _⟩)
      (by decide) 0 1 (by decide) (by decide)⟩

/-- C3: one ordering column named col and the boundary list [1] give
exactly the two predicates of the half-open split at 1, in order
(the identifier is rendered backtick-quoted, as everywhere in the
query builder). -/
theorem C3_single_column_boundary_one :
    buildWhereClauses ["col"] [["1"]] = ["`col`<1", "`col`>=1"] := by decide

/-- C5: GetSuitableRows returns the 200000 default at zero average row
length, otherwise 128MiB divided by the row length capped at 1000000,
with the three sample values of the spec. -/
theorem C5_GetSuitableRows_spec :
    GetSuitableRows 0 = 200000 ∧
    (∀ a : Nat, a ≠ 0 → GetSuitableRows a = min (134217728 / a) 1000000) ∧
    GetSuitableRows 32 = 1000000 ∧ GetSuitableRows 1024 = 131072 ∧
    GetSuitableRows 4096 = 32768 := by
  refine ⟨by decide, ?_, by decide, by decide, by decide⟩
  intro a ha
  have hbytes : (128 * 1024 * 1024 : Nat) = 134217728 := by norm_num
  simp only [GetSuitableRows, if_neg ha, hbytes]
  by_cases h : 134217728 / a > 1000000
  · rw [if_pos h]
    omega
  · rw [if_neg h]
    omega

/-- C5 witness: the nonzero branch applied at average row length 1024. -/
theorem C5_GetSuitableRows_spec_witness :
    (1024 : Nat) ≠ 0 ∧ GetSuitableRows 1024 = min (134217728 / 1024) 1000000 :=
  ⟨by decide, C5_GetSuitableRows_spec.2.1 1024 (by decide)⟩

/-- C9: an empty ordering-column list or an empty boundary-tuple list
makes buildWhereClauses return nil: zero predicates, not one unbounded
predicate. -/
theorem C9_buildWhereClauses_empty_inputs :
    (∀ vals, buildWhereClauses [] vals = []) ∧ (∀ cols, buildWhereClauses cols [] = []) := by
  constructor
  · intro vals
    simp [buildWhereClauses]
  · intro cols
    simp [buildWhereClauses]

/-!
Key selection: pickupPossibleField and getNumericIndex.  The SHOW INDEX
result rows are passed explicitly as (NON_UNIQUE, KEY_NAME, COLUMN_NAME)
triples; the numeric-type allow-list dataTypeNum, defined in another file
of the repository, is passed as a membership test.
-/

/-- Model of string2Map (a helper defined outside sql.go): the lookup map
from the parallel column-name and column-type lists, with later duplicate
keys overwriting earlier ones as in a Go map. -/
def string2Map (keys vals : List String) (k : String) : String :=
  (keys.zip vals).foldl (fun acc p => if p.1 = k then p.2 else acc) ""

/-- Model of the result loop of getNumericIndex: the first row whose
column type is numeric and whose key name is PRIMARY is returned at once;
otherwise the uniqueColumnName accumulator (started empty) is updated
under the guard `uniqueColumnName != "" && oneRow[0] == "0" && ok`,
exactly as written in the source, and returned at the end. -/
def getNumericIndexLoop (isNum : String → Bool) (cn2t : String → String) :
    List (String × String × String) → String → String
  | [], acc => acc
  | row :: rest, acc =>
    let ok := isNum (cn2t row.2.2)
    if ok && decide (row.2.1 = "PRIMARY") then row.2.2
    else
      getNumericIndexLoop isNum cn2t rest
        (if (!(decide (acc = ""))) && decide (row.1 = "0") && ok then row.2.2 else acc)

/-- Model of getNumericIndex: run the loop over the SHOW INDEX rows with
the name-to-type map of the table's metadata. -/
def getNumericIndex (isNum : String → Bool) (colNames colTypes : List String)
    (results : List (String × String × String)) : String :=
  getNumericIndexLoop isNum (string2Map colNames colTypes) results ""

/-- Model of pickupPossibleField: the implicit row id column when the
table has one, otherwise whatever getNumericIndex finds ("" meaning no
usable ordering key). -/
def pickupPossibleField (hasImplicitRowID : Bool) (isNum : String → Bool)
    (colNames colTypes : List String) (results : List (String × String × String)) : String :=
  if hasImplicitRowID then "_tidb_rowid"
  else getNumericIndex isNum colNames colTypes results

theorem getNumericIndexLoop_empty_acc (isNum : String → Bool) (cn2t : String → String)
    (results : List (String × String × String)) :
    getNumericIndexLoop isNum cn2t results "" = "" ∨
    ∃ row ∈ results, row.2.1 = "PRIMARY" ∧ isNum (cn2t row.2.2) = true ∧
      getNumericIndexLoop isNum cn2t results "" = row.2.2 := by
  induction results with
  | nil => exact Or.inl rfl
  | cons row rest ih =>
    simp only [getNumericIndexLoop]
    by_cases hp : (isNum (cn2t row.2.2) && decide (row.2.1 = "PRIMARY")) = true
    · rw [Bool.and_eq_true, decide_eq_true_eq] at hp
      refine Or.inr ⟨row, by simp, hp.2, hp.1, ?_⟩
      rw [if_pos (by rw [Bool.and_eq_true, decide_eq_true_eq]; exact hp)]
    · rw [if_neg hp]
      have hacc : (if (!(decide True)) && decide (row.1 = "0") &&
          isNum (cn2t row.2.2) then row.2.2 else "") = "" := by simp
      rw [hacc]
      rcases ih with h | ⟨r, hr, h1, h2, h3⟩
      · exact Or.inl h
      · exact Or.inr ⟨r, by simp [hr], h1, h2, h3⟩

/-- C4: the ordering-key policy of the code.  Step (1) holds: with the
implicit row id the field is _tidb_rowid.  Step (2) holds on its sample:
a numeric PRIMARY row is returned.  Step (3) of the claim is violated:
the unique-key branch guards on `uniqueColumnName != ""`, which never
holds because the accumulator starts empty and is only ever written under
that same guard, so a numeric unique key (NON_UNIQUE = 0, sample row
("0", "uniq", "c") over column c of type INT) yields "" (no ordering
key), not c; in general the function returns "" or a numeric PRIMARY
column, never a unique-key column. -/
theorem C4_pickupPossibleField_policy (isNum : String → Bool)
    (colNames colTypes : List String) (results : List (String × String × String)) :
    (pickupPossibleField true isNum colNames colTypes results = "_tidb_rowid") ∧
    (getNumericIndex (fun t => decide (t = "INT")) ["c"] ["INT"]
      [("0", "PRIMARY", "c")] = "c") ∧
    (getNumericIndex (fun t => decide (t = "INT")) ["c"] ["INT"]
      [("0", "uniq", "c")] = "") ∧
    (getNumericIndex isNum colNames colTypes results = "" ∨
      ∃ row ∈ results, row.2.1 = "PRIMARY" ∧
        isNum (string2Map colNames colTypes row.2.2) = true ∧
        getNumericIndex isNum colNames colTypes results = row.2.2) :=
  ⟨rfl, by decide, by decide,
    getNumericIndexLoop_empty_acc isNum (string2Map colNames colTypes) results⟩

/-!
Implicit row id detection: SelectTiDBRowID.  The outcome of executing the
zero-row probe is passed explicitly: none when the query succeeded, some
errMsg when it failed with error text errMsg.  errors.Annotatef prefixes
the formatted message, so the propagated error text is
"sql: <query>: <original error>".
-/

/-- The probing query text of SelectTiDBRowID. -/
def tiDBRowIDQuery (database table : String) : String :=
  "SELECT _tidb_rowid from `" ++ escapeString database ++ "`.`" ++ escapeString table ++
  "` LIMIT 0"

/-- Character-list prefix test (Bool-valued, kernel-evaluable). -/
def isPrefB : List Char → List Char → Bool
  | [], _ => true
  | _ :: _, [] => false
  | a :: as, b :: bs => decide (a = b) && isPrefB as bs

/-- Character-list containment test. -/
def hasSub (pat : List Char) : List Char → Bool
  | [] => isPrefB pat []
  | c :: rest => isPrefB pat (c :: rest) || hasSub pat rest

/-- Model of strings.Contains on strings. -/
def strContains (s pat : String) : Bool := hasSub pat.data s.data

/-- Model of SelectTiDBRowID: probe success gives (true, nil); a probe
error whose lowercased text contains the bad-field code 1054 gives
(false, nil); any other probe error is annotated with the query text and
propagated as (false, err). -/
def SelectTiDBRowID (probe : Option String) (database table : String) :
    Bool × Option String :=
  match probe with
  | none => (true, none)
  | some errMsg =>
    if strContains (toLowerStr errMsg) "1054" then (false, none)
    else (false, some ("sql: " ++ tiDBRowIDQuery database table ++ ": " ++ errMsg))

theorem isPrefB_append (p r : List Char) : isPrefB p (p ++ r) = true := by
  induction p with
  | nil => rfl
  | cons a as ih => simp [isPrefB, ih]

theorem hasSub_of_pref (p s : List Char) (h : isPrefB p s = true) : hasSub p s = true := by
  cases s with
  | nil => simpa [hasSub] using h
  | cons c r => simp [hasSub, h]

theorem hasSub_cons (p : List Char) (c : Char) (s : List Char) (h : hasSub p s = true) :
    hasSub p (c :: s) = true := by
  simp [hasSub, h]

theorem hasSub_mid (p x y : List Char) : hasSub p (x ++ (p ++ y)) = true := by
  induction x with
  | nil =>
    rw [List.nil_append]
    exact hasSub_of_pref p (p ++ y) (isPrefB_append p y)
  | cons c x ih =>
    rw [List.cons_append]
    exact hasSub_cons p c _ ih

/-- C6: SelectTiDBRowID returns (true, nil) when the probe succeeds,
(false, nil) when the probe fails with the column-not-found class
(lowercased error text containing the code 1054), and (false, err) for
any other probe failure, where the propagated error text contains the
probing query. -/
theorem C6_SelectTiDBRowID_spec (database table msg : String) :
    SelectTiDBRowID none database table = (true, none) ∧
    (strContains (toLowerStr msg) "1054" = true →
      SelectTiDBRowID (some msg) database table = (false, none)) ∧
    (strContains (toLowerStr msg) "1054" = false →
      ∃ emsg, SelectTiDBRowID (some msg) database table = (false, some emsg) ∧
        strContains emsg (tiDBRowIDQuery database table) = true) := by
  refine ⟨rfl, ?_, ?_⟩
  · intro h
    simp [SelectTiDBRowID, h]
  · intro h
    refine ⟨"sql: " ++ tiDBRowIDQuery database table ++ ": " ++ msg, ?_, ?_⟩
    · simp [SelectTiDBRowID, h]
    · show hasSub (tiDBRowIDQuery database table).data
        ("sql: " ++ tiDBRowIDQuery database table ++ ": " ++ msg).data = true
      have hdata : ("sql: " ++ tiDBRowIDQuery database table ++ ": " ++ msg).data =
          "sql: ".data ++ ((tiDBRowIDQuery database table).data ++ (": ".data ++ msg.data)) := by
        simp [List.append_assoc]
      rw [hdata]
      exact hasSub_mid _ _ _

/-!
Planner-based row estimation: detectEstimateRows (the worker behind
estimateCount, which calls it with the field names rows, estRows, count).
The query outcome is passed explicitly: none for a failed query, and
otherwise the column names plus the first result row (none when the
result set is empty, in which case Scan fails and 0 is returned).  A NULL
column scans to the empty string.  strconv.ParseFloat followed by the
uint64 truncation is abstracted as parseFloatTrunc, returning none when
the text does not parse as a float. -/
structure EstRows where
  columns : List String
  firstRow : Option (List (Option String))

/-- Model of strings.EqualFold as used on the ASCII row-count field
names: case-insensitive equality via lowercasing. -/
def equalFold (a b : String) : Bool := decide (toLowerStr a = toLowerStr b)

/-- The labelled search loop of detectEstimateRows: the first column
index (counting from k) whose name case-insensitively equals one of the
field names. -/
def firstFieldIndexFrom (fieldNames : List String) : List String → Nat → Option Nat
  | [], _ => none
  | col :: rest, k =>
    if fieldNames.any fun f => equalFold col f then some k
    else firstFieldIndexFrom fieldNames rest (k + 1)

/-- The field index the Go loop (`found:` label) selects. -/
def firstFieldIndex (columns fieldNames : List String) : Option Nat :=
  firstFieldIndexFrom fieldNames columns 0

/-- The row-count field names estimateCount passes to
detectEstimateRows: the MySQL/MariaDB name, the TiDB name, and the
pre-4.0.0-beta.2 TiDB name. -/
def estimateFieldNames : List String := ["rows", "estRows", "count"]

/-- Model of detectEstimateRows: 0 for a query error, a missing first
row (Scan error), no matching column, or an unparsable value; otherwise
the parsed and truncated value of the selected column. -/
def detectEstimateRows (parseFloatTrunc : String → Option Nat) (queryResult : Option EstRows)
    (fieldNames : List String) : Nat :=
  match queryResult with
  | none => 0
  | some r =>
    let fieldIndex := firstFieldIndex r.columns fieldNames
    match r.firstRow, fieldIndex with
    | none, _ => 0
    | _, none => 0
    | some row, some i =>
      match parseFloatTrunc ((row.getD i none).getD "") with
      | none => 0
      | some n => n

theorem firstFieldIndexFrom_none (fns cols : List String) (k : Nat)
    (h : ∀ col ∈ cols, ∀ f ∈ fns, equalFold col f = false) :
    firstFieldIndexFrom fns cols k = none := by
  induction cols generalizing k with
  | nil => rfl
  | cons col rest ih =>
    simp only [firstFieldIndexFrom]
    have hneg : ¬ ((fns.any fun f => equalFold col f) = true) := by
      rw [List.any_eq_true]
      rintro ⟨f, hf, heq⟩
      rw [h col (by simp) f hf] at heq
      cases heq
    rw [if_neg hneg]
    exact ih (k + 1) (fun c hc f hf => h c (by simp [hc]) f hf)

theorem firstFieldIndexFrom_some (fns cols : List String) (k i : Nat)
    (h : firstFieldIndexFrom fns cols k = some i) :
    k ≤ i ∧ i - k < cols.length ∧
    (∃ f ∈ fns, equalFold (cols.getD (i - k) "") f = true) ∧
    (∀ j, j < i - k → ∀ f ∈ fns, equalFold (cols.getD j "") f = false) := by
  induction cols generalizing k with
  | nil => simp [firstFieldIndexFrom] at h
  | cons col rest ih =>
    simp only [firstFieldIndexFrom] at h
    by_cases hc : (fns.any fun f => equalFold col f) = true
    · rw [if_pos hc] at h
      have hik : i = k := by
        have := h
        simp at this
        omega
      subst hik
      simp only [Nat.sub_self]
      refine ⟨le_refl i, by simp, ?_, ?_⟩
      · simpa [List.any_eq_true] using hc
      · intro j hj
        omega
    · rw [if_neg hc] at h
      obtain ⟨h1, h2, h3, h4⟩ := ih (k + 1) h
      have hik : i - k = (i - (k + 1)) + 1 := by omega
      refine ⟨by omega, by simp; omega, ?_, ?_⟩
      · rw [hik, List.getD_cons_succ]
        exact h3
      · intro j hj f hf
        match j with
        | 0 =>
          rw [List.getD_cons_zero]
          have : ¬ ∃ f ∈ fns, equalFold col f = true := by
            simpa [List.any_eq_true] using hc
          by_contra hcon
          rw [Bool.not_eq_false] at hcon
          exact this ⟨f, hf, hcon⟩
        | m + 1 =>
          rw [List.getD_cons_succ]
          exact h4 m (by omega) f hf

/-- C7: detectEstimateRows returns 0 on a query error, on a missing
result row, and when no plan column case-insensitively matches one of
the requested field names; when a column is selected its value is the
parse-and-truncate result (0 when unparsable, the value otherwise); and
the selected index is the first case-insensitive match: some field name
matches at it and none matches before it. -/
theorem C7_detectEstimateRows_spec (parse : String → Option Nat) (fns : List String)
    (r : EstRows) (row : List (Option String)) (i : Nat) :
    detectEstimateRows parse none fns = 0 ∧
    (r.firstRow = none → detectEstimateRows parse (some r) fns = 0) ∧
    ((∀ col ∈ r.columns, ∀ f ∈ fns, equalFold col f = false) →
      detectEstimateRows parse (some r) fns = 0) ∧
    (r.firstRow = some row → firstFieldIndex r.columns fns = some i →
      detectEstimateRows parse (some r) fns = (parse ((row.getD i none).getD "")).getD 0) ∧
    (firstFieldIndex r.columns fns = some i →
      i < r.columns.length ∧
      (∃ f ∈ fns, equalFold (r.columns.getD i "") f = true) ∧
      (∀ j, j < i → ∀ f ∈ fns, equalFold (r.columns.getD j "") f = false)) ∧
    estimateFieldNames = ["rows", "estRows", "count"] ∧
    firstFieldIndex ["id", "estRows", "task"] estimateFieldNames = some 1 ∧
    firstFieldIndex ["id", "ESTROWS", "task"] estimateFieldNames = some 1 ∧
    firstFieldIndex ["id", "select_type", "table"] estimateFieldNames = none := by
  refine ⟨rfl, ?_, ?_, ?_, ?_, rfl, by decide, by decide, by decide⟩
  · intro h
    simp [detectEstimateRows, h]
  · intro h
    have hnone : firstFieldIndex r.columns fns = none :=
      firstFieldIndexFrom_none fns r.columns 0 h
    cases hr : r.firstRow <;> simp [detectEstimateRows, hnone, hr]
  · intro hrow hidx
    simp only [detectEstimateRows, hrow, hidx]
    cases hp : parse ((row.getD i none).getD "") <;> simp [hp]
  · intro hidx
    obtain ⟨h1, h2, h3, h4⟩ := firstFieldIndexFrom_some fns r.columns 0 i hidx
    simp only [Nat.sub_zero] at h2 h3 h4
    exact ⟨h2, h3, fun j hj => h4 j hj⟩

/-!
Lock statement assembly: buildLockTablesSQL.  DatabaseTables (a Go map
from database name to table list) is modelled as an association list,
fixing one iteration order; the caller block list
map[string]map[string]interface then is an association list from database
name to blocked table names.  TableInfo and the TableType constants come
from the repository's type declarations outside sql.go. -/
inductive TableType where
  | TableTypeBase
  | TableTypeView
deriving DecidableEq

structure TableInfo where
  name : String
  avgRowLength : Nat
  type : TableType

/-- Membership of (dbName, tableName) in the caller block list, as the
two-level map lookup of the source. -/
def inBlockList (blockList : List (String × List String)) (dbName tableName : String) : Bool :=
  match blockList.find? (fun p => decide (p.1 = dbName)) with
  | some p => decide (tableName ∈ p.2)
  | none => false

/-- One locked-table fragment: the "`%s`.`%s` READ" format applied to the
escaped database and table names. -/
def lockItem (p : String × String) : String :=
  "`" ++ escapeString p.1 ++ "`.`" ++ escapeString p.2 ++ "` READ"

/-- The per-table step of the buildLockTablesSQL loop: skip views, skip
block-listed tables, then write either the leading "LOCK TABLES ..."
fragment (first write, n still false) or a ",..." continuation. -/
def lockStep (blockList : List (String × List String)) (dbName : String)
    (acc : String × Bool) (table : TableInfo) : String × Bool :=
  if table.type ≠ TableType.TableTypeBase then acc
  else if inBlockList blockList dbName table.name then acc
  else if acc.2 = false then
    (acc.1 ++ "LOCK TABLES " ++ lockItem (dbName, table.name), true)
  else (acc.1 ++ "," ++ lockItem (dbName, table.name), true)

/-- Model of buildLockTablesSQL: the two nested loops over the table map
and each database's tables, threading the buffer and the
have-written-something flag. -/
def buildLockTablesSQL (allTables : List (String × List TableInfo))
    (blockList : List (String × List String)) : String :=
  (allTables.foldl (fun acc p => p.2.foldl (lockStep blockList p.1) acc) ("", false)).1

/-- The (database, table) pairs the lock statement should name: base
tables of the map that are not block-listed, in iteration order. -/
def selectedTables : List (String × List TableInfo) → List (String × List String) →
    List (String × String)
  | [], _ => []
  | (d, ts) :: rest, bl =>
    ((ts.filter fun ti => decide (ti.type = TableType.TableTypeBase) &&
      !(inBlockList bl d ti.name)).map fun ti => (d, ti.name)) ++ selectedTables rest bl

/-- Concatenation of string fragments (String.join with transparent
equations). -/
def strConcat : List String → String
  | [] => ""
  | s :: rest => s ++ strConcat rest

theorem lockStep_inner_true (bl : List (String × List String)) (d : String)
    (ts : List TableInfo) (s : String) :
    ts.foldl (lockStep bl d) (s, true) =
      (s ++ strConcat (((ts.filter fun ti => decide (ti.type = TableType.TableTypeBase) &&
        !(inBlockList bl d ti.name)).map fun ti => (d, ti.name)).map
          fun q => "," ++ lockItem q), true) := by
  induction ts generalizing s with
  | nil => simp [strConcat]
  | cons t ts ih =>
    rw [List.foldl_cons]
    by_cases h1 : t.type = TableType.TableTypeBase
    · by_cases h2 : inBlockList bl d t.name = true
      · have hstep : lockStep bl d (s, true) t = (s, true) := by
          simp [lockStep, h1, h2]
        rw [hstep, ih s]
        simp [List.filter_cons, h1, h2]
      · have hstep : lockStep bl d (s, true) t = (s ++ "," ++ lockItem (d, t.name), true) := by
          simp [lockStep, h1, h2]
        rw [hstep, ih]
        simp [List.filter_cons, h1, h2, strConcat, String.append_assoc]
    · have hstep : lockStep bl d (s, true) t = (s, true) := by
        simp [lockStep, h1]
      rw [hstep, ih s]
      simp [List.filter_cons, h1]

theorem strConcat_append (l1 l2 : List String) :
    strConcat (l1 ++ l2) = strConcat l1 ++ strConcat l2 := by
  induction l1 with
  | nil =>
    show strConcat l2 = "" ++ strConcat l2
    rfl
  | cons a l ih => simp [strConcat, ih, String.append_assoc]

theorem lockStep_inner_false (bl : List (String × List String)) (d : String)
    (ts : List TableInfo) (s : String) :
    ts.foldl (lockStep bl d) (s, false) =
      (match (ts.filter fun ti => decide (ti.type = TableType.TableTypeBase) &&
          !(inBlockList bl d ti.name)).map (fun ti => (d, ti.name)) with
       | [] => (s, false)
       | q :: qrest => (s ++ "LOCK TABLES " ++ lockItem q ++
           strConcat (qrest.map fun q2 => "," ++ lockItem q2), true)) := by
  induction ts generalizing s with
  | nil => rfl
  | cons t ts ih =>
    rw [List.foldl_cons]
    by_cases h1 : t.type = TableType.TableTypeBase
    · by_cases h2 : inBlockList bl d t.name = true
      · have hstep : lockStep bl d (s, false) t = (s, false) := by
          simp [lockStep, h1, h2]
        rw [hstep, ih s]
        simp [List.filter_cons, h1, h2]
      · have hstep : lockStep bl d (s, false) t =
            (s ++ "LOCK TABLES " ++ lockItem (d, t.name), true) := by
          simp [lockStep, h1, h2]
        rw [hstep, lockStep_inner_true]
        simp [List.filter_cons, h1, h2, strConcat, String.append_assoc]
    · have hstep : lockStep bl d (s, false) t = (s, false) := by
        simp [lockStep, h1]
      rw [hstep, ih s]
      simp [List.filter_cons, h1]

theorem buildLock_outer_true (bl : List (String × List String))
    (ats : List (String × List TableInfo)) (s : String) :
    ats.foldl (fun acc p => p.2.foldl (lockStep bl p.1) acc) (s, true) =
      (s ++ strConcat ((selectedTables ats bl).map fun q => "," ++ lockItem q), true) := by
  induction ats generalizing s with
  | nil => simp [selectedTables, strConcat]
  | cons p ats' ih =>
    cases p with
    | mk d ts =>
      rw [List.foldl_cons, lockStep_inner_true, ih]
      simp [selectedTables, strConcat_append, String.append_assoc, List.map_append]

theorem buildLock_outer_false (bl : List (String × List String))
    (ats : List (String × List TableInfo)) (s : String) :
    ats.foldl (fun acc p => p.2.foldl (lockStep bl p.1) acc) (s, false) =
      (match selectedTables ats bl with
       | [] => (s, false)
       | q :: qrest => (s ++ "LOCK TABLES " ++ lockItem q ++
           strConcat (qrest.map fun q2 => "," ++ lockItem q2), true)) := by
  induction ats generalizing s with
  | nil => rfl
  | cons p ats' ih =>
    cases p with
    | mk d ts =>
      rw [List.foldl_cons, lockStep_inner_false]
      cases hfd : (ts.filter fun ti => decide (ti.type = TableType.TableTypeBase) &&
          !(inBlockList bl d ti.name)).map (fun ti => (d, ti.name)) with
      | nil =>
        show (List.foldl (fun acc p => List.foldl (lockStep bl p.1) acc p.2) (s, false) ats') = _
        rw [ih s]
        simp [selectedTables, hfd]
      | cons q qrest =>
        show (List.foldl (fun acc p => List.foldl (lockStep bl p.1) acc p.2)
          (s ++ "LOCK TABLES " ++ lockItem q ++
            strConcat (qrest.map fun q2 => "," ++ lockItem q2), true) ats') = _
        rw [buildLock_outer_true]
        simp [selectedTables, hfd, strConcat_append, String.append_assoc, List.map_append]

theorem selectedTables_mem (ats : List (String × List TableInfo))
    (bl : List (String × List String)) (d t : String) :
    (d, t) ∈ selectedTables ats bl ↔
      ∃ ts, (d, ts) ∈ ats ∧ ∃ ti ∈ ts, ti.name = t ∧
        ti.type = TableType.TableTypeBase ∧ inBlockList bl d ti.name = false := by
  induction ats with
  | nil => simp [selectedTables]
  | cons p rest ih =>
    cases p with
    | mk d' ts' =>
      simp only [selectedTables, List.mem_append, List.mem_map, List.mem_filter,
        List.mem_cons, ih, Bool.and_eq_true, decide_eq_true_eq, Bool.not_eq_true']
      constructor
      · rintro (⟨ti, ⟨hti, htype, hblock⟩, heq⟩ | ⟨ts, hts, hrest⟩)
        · rw [Prod.mk.injEq] at heq
          obtain ⟨hd, ht⟩ := heq
          subst hd
          exact ⟨ts', Or.inl rfl, ti, hti, ht, htype, hblock⟩
        · exact ⟨ts, Or.inr hts, hrest⟩
      · rintro ⟨ts, hts | hts, ti, hti, ht, htype, hblock⟩
        · rw [Prod.mk.injEq] at hts
          obtain ⟨hd, hl⟩ := hts
          subst hd
          subst hl
          exact Or.inl ⟨ti, ⟨hti, htype, hblock⟩, by rw [ht]⟩
        · exact Or.inr ⟨ts, hts, ti, hti, ht, htype, hblock⟩

/-- C8: the LOCK TABLES statement is the "LOCK TABLES" keyword followed
by one backtick-quoted READ item per selected table (empty when none is
selected), and a (database, table) pair is selected exactly when the
table map holds a table of that name under that database whose type is
the base-table type (never a view) and which the caller block list does
not name. -/
theorem C8_buildLockTablesSQL_spec (allTables : List (String × List TableInfo))
    (blockList : List (String × List String)) (d t : String) :
    buildLockTablesSQL allTables blockList =
      (match selectedTables allTables blockList with
       | [] => ""
       | q :: qrest => "LOCK TABLES " ++ lockItem q ++
           strConcat (qrest.map fun q2 => "," ++ lockItem q2)) ∧
    ((d, t) ∈ selectedTables allTables blockList ↔
      ∃ ts, (d, ts) ∈ allTables ∧ ∃ ti ∈ ts, ti.name = t ∧
        ti.type = TableType.TableTypeBase ∧ inBlockList blockList d ti.name = false) := by
  constructor
  · unfold buildLockTablesSQL
    rw [buildLock_outer_false]
    cases hsel : selectedTables allTables blockList with
    | nil => rfl
    | cons q qrest => rfl
  · exact selectedTables_mem allTables blockList d t

/-!
Row scanning helper: GetSpecifiedColumnValuesAndClose.  The rows handle
is passed explicitly: none models a nil *sql.Rows, otherwise the column
names and the scanned rows, a NULL column being none (the invalid
NullString whose String field is "").  The Go map iteration over
fieldIndexMp is modelled in ascending column position, one of the
iteration orders the map may produce. -/
structure QueryRows where
  columns : List String
  rows : List (List (Option String))

/-- Model of the fieldIndexMp construction: for every column position i,
the last requested-name position j with ToUpper(col) == columnName[j]
(the inner loop's map writes overwrite, so the last match wins), as an
association list ordered by column position. -/
def buildFieldIndexMp (columns columnName : List String) : List (Nat × Nat) :=
  (List.range columns.length).filterMap fun i =>
    match ((List.range columnName.length).filter fun j =>
        decide (toUpperStr (columns.getD i "") = columnName.getD j "")).getLast? with
    | some j => some (i, j)
    | none => none

/-- Model of GetSpecifiedColumnValuesAndClose: empty result (no error)
for a nil rows handle; empty result when no column matches a requested
name; otherwise one output row per scanned row having at least one
matching non-NULL column, carrying the matched values at the requested
positions and "" elsewhere. -/
def GetSpecifiedColumnValuesAndClose (rows : Option QueryRows) (columnName : List String) :
    Except String (List (List String)) :=
  match rows with
  | none => Except.ok []
  | some r =>
    let mp := buildFieldIndexMp r.columns columnName
    if mp = [] then Except.ok []
    else
      Except.ok (r.rows.filterMap fun row =>
        let written := mp.any fun p => (row.getD p.1 none).isSome
        let tmpStr := mp.foldl (fun acc p =>
          match row.getD p.1 none with
          | some v => acc.set p.2 v
          | none => acc) (List.replicate columnName.length "")
        if written then some tmpStr else none)

/-- A row has a non-NULL value in some column matching a requested name. -/
def requestedNonNull (columns names : List String) (row : List (Option String)) : Bool :=
  (List.range columns.length).any fun i =>
    (names.any fun nm => decide (toUpperStr (columns.getD i "") = nm)) && (row.getD i none).isSome

theorem mem_buildFieldIndexMp (columns names : List String) (i j : Nat)
    (h : (i, j) ∈ buildFieldIndexMp columns names) :
    i < columns.length ∧ j < names.length ∧
      toUpperStr (columns.getD i "") = names.getD j "" := by
  simp only [buildFieldIndexMp, List.mem_filterMap, List.mem_range] at h
  obtain ⟨i', hi', harm⟩ := h
  cases hl : ((List.range names.length).filter fun j' =>
      decide (toUpperStr (columns.getD i' "") = names.getD j' "")).getLast? with
  | none => rw [hl] at harm; cases harm
  | some j' =>
    rw [hl] at harm
    have hpair : (i', j') = (i, j) := by
      injection harm
    rw [Prod.mk.injEq] at hpair
    obtain ⟨rfl, rfl⟩ := hpair
    have hjmem : j' ∈ ((List.range names.length).filter fun j2 =>
        decide (toUpperStr (columns.getD i' "") = names.getD j2 "")) :=
      List.mem_of_mem_getLast? (by rw [hl]; rfl)
    rw [List.mem_filter, List.mem_range, decide_eq_true_eq] at hjmem
    exact ⟨hi', hjmem.1, hjmem.2⟩

theorem buildFieldIndexMp_exists (columns names : List String) (i : Nat)
    (hi : i < columns.length) (nm : String) (hnm : nm ∈ names)
    (heq : toUpperStr (columns.getD i "") = nm) :
    ∃ j, (i, j) ∈ buildFieldIndexMp columns names := by
  obtain ⟨j0, hj0, hjeq⟩ := List.mem_iff_getElem.mp hnm
  have hj0mem : j0 ∈ ((List.range names.length).filter fun j2 =>
      decide (toUpperStr (columns.getD i "") = names.getD j2 "")) := by
    rw [List.mem_filter, List.mem_range, decide_eq_true_eq]
    refine ⟨hj0, ?_⟩
    rw [heq, List.getD_eq_getElem _ _ hj0, hjeq]
  have hne : ((List.range names.length).filter fun j2 =>
      decide (toUpperStr (columns.getD i "") = names.getD j2 "")) ≠ [] := by
    intro hcon
    rw [hcon] at hj0mem
    cases hj0mem
  cases hl : ((List.range names.length).filter fun j2 =>
      decide (toUpperStr (columns.getD i "") = names.getD j2 "")).getLast? with
  | none => exact absurd (List.getLast?_eq_none_iff.mp hl) hne
  | some j' =>
    refine ⟨j', ?_⟩
    simp only [buildFieldIndexMp, List.mem_filterMap, List.mem_range]
    exact ⟨i, hi, by rw [hl]⟩

theorem mp_any_eq_requested (columns names : List String) (row : List (Option String)) :
    ((buildFieldIndexMp columns names).any fun p => (row.getD p.1 none).isSome) =
      requestedNonNull columns names row := by
  rw [Bool.eq_iff_iff]
  simp only [List.any_eq_true, requestedNonNull, List.mem_range, Bool.and_eq_true]
  constructor
  · rintro ⟨p, hp, hsome⟩
    obtain ⟨hi, hj, heq⟩ := mem_buildFieldIndexMp columns names p.1 p.2 hp
    refine ⟨p.1, hi, ⟨?_, hsome⟩⟩
    exact ⟨names.getD p.2 "", getD_mem_of_lt names "" p.2 hj, by rw [decide_eq_true_eq]; exact heq⟩
  · rintro ⟨i, hi, hany, hsome⟩
    obtain ⟨nm, hnm, hdec⟩ := hany
    rw [decide_eq_true_eq] at hdec
    obtain ⟨j, hj⟩ := buildFieldIndexMp_exists columns names i hi nm hnm hdec
    exact ⟨(i, j), hj, hsome⟩

theorem foldSet_length (mp : List (Nat × Nat)) (row : List (Option String))
    (init : List String) :
    (mp.foldl (fun acc p =>
      match row.getD p.1 none with
      | some v => acc.set p.2 v
      | none => acc) init).length = init.length := by
  induction mp generalizing init with
  | nil => rfl
  | cons p rest ih =>
    rw [List.foldl_cons]
    cases hv : row.getD p.1 none with
    | none =>
      simp only [hv]
      exact ih init
    | some v =>
      simp only [hv]
      rw [ih (init.set p.2 v)]
      exact List.length_set init p.2 v

theorem foldSet_untouched (mp : List (Nat × Nat)) (row : List (Option String))
    (init : List String) (n : Nat)
    (h : ∀ p ∈ mp, p.2 = n → row.getD p.1 none = none) :
    (mp.foldl (fun acc p =>
      match row.getD p.1 none with
      | some v => acc.set p.2 v
      | none => acc) init).getD n "" = init.getD n "" := by
  induction mp generalizing init with
  | nil => rfl
  | cons p rest ih =>
    rw [List.foldl_cons]
    cases hv : row.getD p.1 none with
    | none =>
      simp only [hv]
      exact ih init (fun q hq hqn => h q (by simp [hq]) hqn)
    | some v =>
      simp only [hv]
      by_cases hn : p.2 = n
      · have hnone := h p (by simp) hn
        rw [hnone] at hv
        cases hv
      · rw [ih (init.set p.2 v) (fun q hq hqn => h q (by simp [hq]) hqn)]
        simp only [List.getD_eq_getElem?_getD]
        rw [List.getElem?_set_ne hn]

theorem getD_replicate_empty (m n : Nat) : (List.replicate m "").getD n "" = "" := by
  rw [List.getD_eq_getElem?_getD, List.getElem?_replicate]
  by_cases h : n < m
  · rw [if_pos h]
    rfl
  · rw [if_neg h]
    rfl

theorem filterMap_if_keep (rows : List (List (Option String)))
    (keep : List (Option String) → Bool) (render : List (Option String) → List String) :
    (rows.filterMap fun row => if keep row then some (render row) else none) =
      (rows.filter keep).map render := by
  induction rows with
  | nil => rfl
  | cons row rest ih =>
    rw [List.filterMap_cons, List.filter_cons]
    by_cases hk : keep row = true
    · rw [hk]
      simp [ih]
    · rw [Bool.not_eq_true] at hk
      rw [hk]
      simp [ih]

/-- C10: GetSpecifiedColumnValuesAndClose returns the empty result and
no error for a nil rows handle; it emits exactly one output row per
scanned row having a non-NULL value in some requested column (rows whose
requested columns are all NULL are omitted); and in every emitted row a
requested position whose matching columns are all NULL (or which no
column matches) holds the empty string. -/
theorem C10_GetSpecifiedColumnValues_spec (names : List String) (r : QueryRows) :
    GetSpecifiedColumnValuesAndClose none names = Except.ok [] ∧
    ∃ out, GetSpecifiedColumnValuesAndClose (some r) names = Except.ok out ∧
      out.length = r.rows.countP (fun row => requestedNonNull r.columns names row) ∧
      (∀ t ∈ out, t.length = names.length ∧
        ∃ row ∈ r.rows, requestedNonNull r.columns names row = true ∧
          ∀ n, n < names.length →
            (∀ i, i < r.columns.length →
              toUpperStr (r.columns.getD i "") = names.getD n "" → row.getD i none = none) →
            t.getD n "" = "") := by
  refine ⟨rfl, ?_⟩
  by_cases hmp : buildFieldIndexMp r.columns names = []
  · refine ⟨[], by simp [GetSpecifiedColumnValuesAndClose, hmp], ?_, by simp⟩
    have hzero : List.countP (fun row => requestedNonNull r.columns names row) r.rows = 0 := by
      rw [List.countP_eq_zero]
      intro row hrow
      rw [← mp_any_eq_requested, hmp]
      simp
    simp [hzero]
  · have hout : GetSpecifiedColumnValuesAndClose (some r) names =
        Except.ok (((r.rows.filter fun row =>
          (buildFieldIndexMp r.columns names).any fun p => (row.getD p.1 none).isSome).map
            fun row => (buildFieldIndexMp r.columns names).foldl (fun acc p =>
              match row.getD p.1 none with
              | some v => acc.set p.2 v
              | none => acc) (List.replicate names.length ""))) := by
      simp only [GetSpecifiedColumnValuesAndClose]
      rw [if_neg hmp, filterMap_if_keep]
    refine ⟨_, hout, ?_, ?_⟩
    · rw [List.length_map, ← List.countP_eq_length_filter]
      refine List.countP_congr (fun row hrow => ?_)
      rw [mp_any_eq_requested]
    · intro t ht
      rw [List.mem_map] at ht
      obtain ⟨row, hrowf, hrender⟩ := ht
      rw [List.mem_filter] at hrowf
      obtain ⟨hrow, hkeep⟩ := hrowf
      refine ⟨?_, row, hrow, ?_, ?_⟩
      · rw [← hrender, foldSet_length]
        exact List.length_replicate names.length ""
      · rw [← mp_any_eq_requested]
        exact hkeep
      · intro n hn hnull
        rw [← hrender]
        rw [foldSet_untouched]
        · exact getD_replicate_empty names.length n
        · intro p hp hpn
          obtain ⟨hi, hj, heq⟩ := mem_buildFieldIndexMp r.columns names p.1 p.2 hp
          exact hnull p.1 hi (by rw [heq, hpn])
